import Mathlib

/-!
Verification of the backtrace symbolization pipeline of `src/utils.cc`
(`parse_backtrace_line`, `demangle_cpp_name`, `run_addr2line`,
`print_backtrace`).

The C functions operate destructively on NUL-terminated byte buffers:
`parse_backtrace_line` overwrites delimiter bytes with `'\0'` and hands out
pointers into the buffer; the strings the caller later reads run from each
pointer to the first NUL byte.  We model the buffer as the immutable
`List Char` of the line's characters (a C string holds no interior NUL, so a
Lean string with no `Char.ofNat 0` character corresponds exactly), a pointer
as a natural-number index, and the set of positions that have been overwritten
with `'\0'` as an explicit list `nulls`.  `cSeek`/`cFind` model `strchr`
(scan forward, stopping at the first written NUL or at the terminator at index
`buf.length`), `cTake`/`cStr` model reading a C string out of the buffer, and
`cAt` models dereferencing a byte at an in-bounds index.
-/

/-- Model of `strchr` from absolute index `i` over the remaining buffer
suffix: stops with `none` at a written-NUL position or at the end of the
buffer (the terminator), otherwise returns the absolute index of the first
occurrence of `c`. -/
def cSeek (nulls : List Nat) (c : Char) : Nat → List Char → Option Nat
  | _, [] => none
  | i, ch :: rest =>
    if i ∈ nulls then none
    else if ch = c then some i
    else cSeek nulls c (i + 1) rest

/-- Model of `strchr(buf + start, c)` on the buffer `buf` with overwritten
NULs at the positions in `nulls`; returns an absolute index. -/
def cFind (buf : List Char) (nulls : List Nat) (c : Char) (start : Nat) : Option Nat :=
  cSeek nulls c start (buf.drop start)

/-- Characters of the C string starting at absolute index `i`: reads the
remaining buffer suffix up to the first written-NUL position (or the
terminator). -/
def cTake (nulls : List Nat) : Nat → List Char → List Char
  | _, [] => []
  | i, ch :: rest =>
    if i ∈ nulls then []
    else ch :: cTake nulls (i + 1) rest

/-- Model of reading the C string that starts at `buf + start`. -/
def cStr (buf : List Char) (nulls : List Nat) (start : Nat) : String :=
  ⟨cTake nulls start (buf.drop start)⟩

/-- Model of dereferencing `buf[i]`: a written-NUL position or the terminator
(index `buf.length`) reads as `'\0'`. -/
def cAt (buf : List Char) (nulls : List Nat) (i : Nat) : Char :=
  if i ∈ nulls then Char.ofNat 0 else buf.getD i (Char.ofNat 0)

/-- The record of out-parameters `(*filename, *function, *offset, *address)`
produced by a successful `parse_backtrace_line` (the spec's `ParsedSymbol`). -/
structure ParsedSymbol where
  filename : String
  function : Option String
  offset : Option String
  address : String
deriving Repr, DecidableEq

/-- Shared tail of `parse_backtrace_line` starting at the line
`// We are now at the opening bracket of the address` (utils.cc:476-484):
`i` is the index the cursor `line` has reached, `nulls` the positions already
overwritten with `'\0'`, and `fo` holds the indices of `'('` and `'+'` when a
function was present (`*function = paren1 + 1`, `*offset = plus + 1`).  All
four strings are read out of the buffer only after the final `*line = '\0'`,
exactly as the caller `print_backtrace` does. -/
def parse_bracket_address (buf : List Char) (nulls : List Nat) (i : Nat)
    (fo : Option (Nat × Nat)) : Option ParsedSymbol :=
  if cAt buf nulls i = '[' then
    match cFind buf nulls ']' (i + 1) with
    | none => none
    | some r =>
      if cAt buf nulls (r + 1) = Char.ofNat 0 then
        some { filename := cStr buf (r :: nulls) 0
               function := fo.map fun p => cStr buf (r :: nulls) (p.1 + 1)
               offset := fo.map fun p => cStr buf (r :: nulls) (p.2 + 1)
               address := cStr buf (r :: nulls) (i + 1) }
      else none
  else none

/-- Model of `parse_backtrace_line` (utils.cc:443-485) on the contents `s` of
the NUL-terminated input buffer.  `p1` is `strchr(line, '(')`, `p2` is
`strchr(line, ')')` (both scanned from the start of the buffer), `q` is
`strchr(function, '+')`, and `b` is `strchr(line, '[')` on the no-function
path.  When the first `'['` sits at index 0 the C code dereferences
`bracket - 1`, one byte before the buffer (see `parse_shapeB_probe`); the
model returns `none` for that out-of-bounds case. -/
def parse_backtrace_line (s : String) : Option ParsedSymbol :=
  match cFind s.data [] '(' 0 with
  | some p1 =>
    match cFind s.data [] ')' 0 with
    | none => none
    | some p2 =>
      match cFind s.data [p1, p2] '+' (p1 + 1) with
      | none => none
      | some q =>
        if cAt s.data [q, p1, p2] (p2 + 1) = ' ' then
          parse_bracket_address s.data [q, p1, p2] (p2 + 2) (some (p1, q))
        else none
  | none =>
    match cFind s.data [] '[' 0 with
    | none => none
    | some b =>
      match b with
      | 0 => none
      | b' + 1 =>
        if cAt s.data [] b' = ' ' then
          parse_bracket_address s.data [b'] (b' + 1) none
        else none

/-- Index of the byte `parse_backtrace_line` dereferences by `*line` right
after `line = bracket - 1` on the no-function path (utils.cc:470-471),
relative to the start of the buffer.  A negative value is a read before the
buffer. -/
def parse_shapeB_probe (s : String) : Option Int :=
  match cFind s.data [] '(' 0 with
  | some _ => none
  | none => (cFind s.data [] '[' 0).map fun b => (b : Int) - 1

/-- The C exception type thrown by `demangle_cpp_name` on failure. -/
inductive demangle_failed_exc_t where
  | mk
deriving Repr, DecidableEq

/-- Reads a leading decimal number (digit accumulator form). -/
def readLenAux : Nat → List Char → Nat × List Char
  | acc, [] => (acc, [])
  | acc, c :: rest =>
    if c.isDigit then readLenAux (acc * 10 + (c.toNat - '0'.toNat)) rest
    else (acc, c :: rest)

/-- Modelled from the spec: the single-letter builtin type codes of the
Itanium C++ mangling scheme, as inverted by `abi::__cxa_demangle` (external
to this repository). -/
def demangle_type_code : Char → Option String
  | 'v' => some "void"
  | 'b' => some "bool"
  | 'c' => some "char"
  | 's' => some "short"
  | 'i' => some "int"
  | 'l' => some "long"
  | 'f' => some "float"
  | 'd' => some "double"
  | _ => none

/-- Modelled from the spec: decoding of a mangled parameter list made of
builtin type codes. -/
def demangle_param_list : List Char → Option (List String)
  | [] => some []
  | c :: rest =>
    match demangle_type_code c, demangle_param_list rest with
    | some t, some ts => some (t :: ts)
    | _, _ => none

/-- Modelled from the spec: `abi::__cxa_demangle` (the Itanium C++
name-demangling transform, which lives in the C++ runtime, outside this
repository).  The spec requires: a valid mangled C++ name maps to a readable
signature (scenario 1 fixes `_Z3fooi` to `"foo(int)"`), and a plain C
identifier (no `_Z` mangling marker) fails.  We model the fragment of the
Itanium scheme covering `_Z<len><identifier><builtin-type-codes...>`: a sole
`v` parameter encodes an empty parameter list.  Anything else fails, matching
the code's `throw demangle_failed_exc_t()`. -/
def demangle_cpp_name (mangled : String) : Except demangle_failed_exc_t String :=
  match mangled.data with
  | '_' :: 'Z' :: c :: rest =>
    if c.isDigit then
      match readLenAux 0 (c :: rest) with
      | (n, rest2) =>
        let name := rest2.take n
        let rest3 := rest2.drop n
        if n ≠ 0 ∧ name.length = n ∧ rest3 ≠ [] then
          match demangle_param_list rest3 with
          | some ts =>
            if ts = ["void"] then Except.ok (⟨name⟩ ++ "()")
            else Except.ok (⟨name⟩ ++ "(" ++ String.intercalate ", " ts ++ ")")
          | none => Except.error demangle_failed_exc_t.mk
        else Except.error demangle_failed_exc_t.mk
    else Except.error demangle_failed_exc_t.mk
  | _ => Except.error demangle_failed_exc_t.mk

/-- Model of `run_addr2line` (utils.cc:526-546).  The subprocess interaction
(`popen`/`fread`) is external: `popenOut` is `none` when `popen` fails, and
otherwise the string of bytes `fread` returned (the C code caps it at
`line_size - 1` bytes; the logic modelled here is independent of the cap).
Returns the resolved location line, or `none` on the `return false` paths. -/
def run_addr2line (popenOut : Option String) : Option String :=
  match popenOut with
  | none => none
  | some out =>
    if out.data = [] then none
    else
      let line : String :=
        if out.data.getLast? = some '\n' then ⟨out.data.dropLast⟩ else out
      if line = "??:0" then none else some line

/-- Modelled from the spec: "Output is trimmed of a single trailing line
terminator." -/
def trimmed_output (out : String) : String :=
  if out.data.getLast? = some '\n' then ⟨out.data.dropLast⟩ else out

/-- The name printed for a parsed frame (utils.cc:566-575): the demangled
name, or `function+offset` when demangling throws, or `"?"` when the frame
has no function. -/
def frame_name (r : ParsedSymbol) : String :=
  match r.function with
  | some f =>
    match demangle_cpp_name f with
    | Except.ok demangled => demangled
    | Except.error _ => f ++ "+" ++ r.offset.getD ""
  | none => "?"

/-- The location printed for a parsed frame (utils.cc:579-584).  `popen` is
the external-subprocess oracle: `popen m a` is what the `addr2line` pipe for
module `m` and address `a` would yield.  The C condition
`use_addr2line && run_addr2line(...)` short-circuits, so the oracle is not
consulted when `use_addr2line` is false. -/
def frame_location (r : ParsedSymbol) (use_addr2line : Bool)
    (popen : String → String → Option String) : String :=
  match (if use_addr2line then run_addr2line (popen r.filename r.address) else none) with
  | some loc => loc
  | none => r.address ++ " (" ++ r.filename ++ ")"

/-- One iteration of the loop of `print_backtrace` (utils.cc:556-589): the
text printed for frame `i` with raw symbol line `sym`. -/
def print_backtrace_frame (i : Nat) (sym : String) (use_addr2line : Bool)
    (popen : String → String → Option String) : String :=
  toString (i + 1) ++ ": " ++
    match parse_backtrace_line sym with
    | none => sym ++ "\n"
    | some r =>
      frame_name r ++ " at " ++ frame_location r use_addr2line popen ++ "\n"

/-- Model of `print_backtrace` (utils.cc:548-595) as the full text written to
`out`.  `symbols` is the result of `backtrace_symbols`: `none` when the
facility reports insufficient memory, otherwise the list of raw symbol
lines. -/
def print_backtrace (symbols : Option (List String)) (use_addr2line : Bool)
    (popen : String → String → Option String) : String :=
  match symbols with
  | none => "(too little memory for backtrace)\n"
  | some syms =>
    String.join (syms.enum.map fun p => print_backtrace_frame p.1 p.2 use_addr2line popen)

/-- A well-formed Shape-A line `module(function+offset) [address]` assembled
from its four components.  Well-formedness (the decomposition being the
intended one) requires the components to avoid the delimiter characters the
parser locates by first occurrence: `module` holds no `'('` and no `')'`
(the code finds the first `')'` of the whole line, so a `')'` inside the
module would be taken for the closing delimiter), `function` holds no `'+'`
and no `')'`, `offset` holds no `')'`, and `address` holds no `']'`. -/
def assembleA (m f off a : String) : String :=
  ⟨m.data ++ '(' :: (f.data ++ '+' :: (off.data ++ ')' :: ' ' :: '[' :: (a.data ++ [']'])))⟩

/-- Holds when the first `')'` of the line precedes the first `'('`
(the degenerate ordering under which `parse_backtrace_line` can accept a
line whose last character is not `']'`; see `parse_accepts_nonbracket_final`). -/
def closeParenBeforeOpen (s : String) : Bool :=
  match cFind s.data [] ')' 0, cFind s.data [] '(' 0 with
  | some p2, some p1 => p2 < p1
  | _, _ => false

/-! Helper lemmas about the buffer model. -/

theorem cSeek_cons_hit (nulls : List Nat) (c : Char) (i : Nat) (ch : Char)
    (rest : List Char) (h1 : i ∉ nulls) (h2 : ch = c) :
    cSeek nulls c i (ch :: rest) = some i := by
  simp [cSeek, h1, h2]

theorem cSeek_cons_miss (nulls : List Nat) (c : Char) (i : Nat) (ch : Char)
    (rest : List Char) (h1 : i ∉ nulls) (h2 : ch ≠ c) :
    cSeek nulls c i (ch :: rest) = cSeek nulls c (i + 1) rest := by
  simp [cSeek, h1, h2]

theorem cSeek_append (nulls : List Nat) (c : Char) :
    ∀ (xs : List Char) (i : Nat), (∀ j, j < xs.length → (i + j ∉ nulls ∧ xs.getD j (Char.ofNat 0) ≠ c)) →
      ∀ ys : List Char, cSeek nulls c i (xs ++ ys) = cSeek nulls c (i + xs.length) ys := by
  intro xs
  induction xs with
  | nil => intro i _ ys; simp
  | cons x rest ih =>
    intro i h ys
    have h0 := h 0 (by simp)
    simp only [List.getD_cons_zero, Nat.add_zero] at h0
    rw [List.cons_append, cSeek_cons_miss nulls c i x _ h0.1 h0.2]
    have step : ∀ j, j < rest.length → ((i + 1) + j ∉ nulls ∧ rest.getD j (Char.ofNat 0) ≠ c) := by
      intro j hj
      have := h (j + 1) (by simpa using Nat.succ_lt_succ hj)
      simpa [Nat.add_assoc, Nat.add_comm 1 j] using this
    rw [ih (i + 1) step ys]
    have : i + 1 + rest.length = i + (rest.length + 1) := by omega
    simp [this]

theorem cSeek_eq_some (nulls : List Nat) (c : Char) :
    ∀ (l : List Char) (i j : Nat), cSeek nulls c i l = some j →
      i ≤ j ∧ j < i + l.length ∧ l.getD (j - i) (Char.ofNat 0) = c ∧ j ∉ nulls ∧
      ∀ t, i ≤ t → t < j → t ∉ nulls ∧ l.getD (t - i) (Char.ofNat 0) ≠ c := by
  intro l
  induction l with
  | nil => intro i j h; simp [cSeek] at h
  | cons ch rest ih =>
    intro i j h
    by_cases hi : i ∈ nulls
    · simp [cSeek, hi] at h
    · by_cases hc : ch = c
      · rw [cSeek_cons_hit nulls c i ch rest hi hc] at h
        obtain rfl : i = j := by simpa using h
        refine ⟨Nat.le_refl i, by simp, ?_, hi, fun t h1 h2 => absurd (Nat.lt_of_le_of_lt h1 h2) (Nat.lt_irrefl i)⟩
        simp [hc]
      · rw [cSeek_cons_miss nulls c i ch rest hi hc] at h
        obtain ⟨h1, h2, h3, h4, h5⟩ := ih (i + 1) j h
        refine ⟨by omega, by simp; omega, ?_, h4, ?_⟩
        · have : j - i = (j - (i + 1)) + 1 := by omega
          rw [this, List.getD_cons_succ]
          exact h3
        · intro t ht1 ht2
          by_cases hti : t = i
          · subst hti
            exact ⟨hi, by simpa using hc⟩
          · have ht1' : i + 1 ≤ t := by omega
            obtain ⟨ha, hb⟩ := h5 t ht1' ht2
            refine ⟨ha, ?_⟩
            have : t - i = (t - (i + 1)) + 1 := by omega
            rw [this, List.getD_cons_succ]
            exact hb

theorem cTake_null (nulls : List Nat) (i : Nat) (l : List Char) (h : i ∈ nulls) :
    cTake nulls i l = [] := by
  cases l <;> simp [cTake, h]

theorem cTake_append (nulls : List Nat) :
    ∀ (xs : List Char) (i : Nat), (∀ j, j < xs.length → i + j ∉ nulls) →
      ∀ ys : List Char, cTake nulls i (xs ++ ys) = xs ++ cTake nulls (i + xs.length) ys := by
  intro xs
  induction xs with
  | nil => intro i _ ys; simp
  | cons x rest ih =>
    intro i h ys
    have h0 : i ∉ nulls := by simpa using h 0 (by simp)
    rw [List.cons_append]
    show (if i ∈ nulls then [] else x :: cTake nulls (i + 1) (rest ++ ys)) = _
    rw [if_neg h0]
    have step : ∀ j, j < rest.length → (i + 1) + j ∉ nulls := by
      intro j hj
      have := h (j + 1) (by simpa using Nat.succ_lt_succ hj)
      simpa [Nat.add_assoc, Nat.add_comm 1 j] using this
    rw [ih (i + 1) step ys]
    have : i + 1 + rest.length = i + (rest.length + 1) := by omega
    simp [this]

theorem getD_append_at (d : Char) :
    ∀ (xs : List Char) (c : Char) (ys : List Char) (n : Nat), n = xs.length →
      (xs ++ c :: ys).getD n d = c := by
  intro xs
  induction xs with
  | nil => intro c ys n h; subst h; simp
  | cons x rest ih =>
    intro c ys n h
    subst h
    simpa using ih c ys rest.length rfl

theorem getD_ne_of_not_mem (d c : Char) :
    ∀ (l : List Char) (j : Nat), c ∉ l → j < l.length → l.getD j d ≠ c := by
  intro l
  induction l with
  | nil => intro j _ h; simp at h
  | cons x rest ih =>
    intro j hmem hj
    cases j with
    | zero =>
      simp only [List.getD_cons_zero]
      intro he
      exact hmem (he ▸ List.mem_cons_self x rest)
    | succ j' =>
      rw [List.getD_cons_succ]
      exact ih j' (fun hc => hmem (List.mem_cons_of_mem x hc)) (by simpa using hj)

theorem getD_mem (d : Char) :
    ∀ (l : List Char) (j : Nat), j < l.length → l.getD j d ∈ l := by
  intro l
  induction l with
  | nil => intro j h; simp at h
  | cons x rest ih =>
    intro j hj
    cases j with
    | zero => simp
    | succ j' =>
      rw [List.getD_cons_succ]
      exact List.mem_cons_of_mem x (ih j' (by simpa using hj))

theorem drop_at_len {α : Type} (xs ys : List α) (n : Nat) (h : n = xs.length) :
    (xs ++ ys).drop n = ys := by
  subst h
  exact List.drop_left xs ys

theorem drop_append_cons {α : Type} (xs : List α) (c : α) (ys : List α) (n : Nat)
    (h : n = xs.length) : (xs ++ c :: ys).drop (n + 1) = ys := by
  have : xs ++ c :: ys = (xs ++ [c]) ++ ys := by simp
  rw [this]
  exact drop_at_len (xs ++ [c]) ys (n + 1) (by simp [h])

theorem getD_drop (d : Char) :
    ∀ (l : List Char) (s t : Nat), (l.drop s).getD t d = l.getD (s + t) d := by
  intro l
  induction l with
  | nil => intro s t; simp
  | cons x rest ih =>
    intro s t
    cases s with
    | zero => simp
    | succ s' =>
      rw [List.drop_succ_cons]
      have : s' + 1 + t = (s' + t) + 1 := by omega
      rw [this, List.getD_cons_succ]
      exact ih s' t

/-! Claim theorems (with counterexamples and witnesses). -/

/-- C1: the raw line `"./prog(_Z3fooi+0x10) [0x4005a0]"` parses into module
`"./prog"`, function `"_Z3fooi"`, offset `"0x10"`, address `"0x4005a0"`; the
function demangles to `"foo(int)"`; and with source-location resolution
disabled the frame line printed by `print_backtrace` is exactly
`"1: foo(int) at 0x4005a0 (./prog)"` (the model includes the trailing newline
that `fprintf` emits), for every subprocess oracle. -/
theorem scenario1_end_to_end :
    parse_backtrace_line "./prog(_Z3fooi+0x10) [0x4005a0]" =
      some ⟨"./prog", some "_Z3fooi", some "0x10", "0x4005a0"⟩ ∧
    demangle_cpp_name "_Z3fooi" = Except.ok "foo(int)" ∧
    ∀ popen : String → String → Option String,
      print_backtrace_frame 0 "./prog(_Z3fooi+0x10) [0x4005a0]" false popen =
        "1: foo(int) at 0x4005a0 (./prog)\n" :=
  ⟨by decide, rfl, fun _ => rfl⟩

/-- C9: when `backtrace_symbols` returns no descriptor list, the output of
`print_backtrace` is exactly the sentinel line, with zero frame lines. -/
theorem print_backtrace_no_symbols :
    ∀ (use_addr2line : Bool) (popen : String → String → Option String),
      print_backtrace none use_addr2line popen = "(too little memory for backtrace)\n" :=
  fun _ _ => rfl

/-- C7: with source-location resolution disabled the resolver expression of
utils.cc:580 yields `none` without consulting the subprocess oracle (the
printed frame does not depend on the oracle at all), and the frame's location
falls back to `"<address> (<module>)"`. -/
theorem resolve_location_disabled :
    ∀ (r : ParsedSymbol) (popen popen2 : String → String → Option String),
      (if (false : Bool) then run_addr2line (popen r.filename r.address) else none) = none ∧
      frame_location r false popen = r.address ++ " (" ++ r.filename ++ ")" ∧
      ∀ (i : Nat) (sym : String),
        print_backtrace_frame i sym false popen = print_backtrace_frame i sym false popen2 :=
  fun _ _ _ => ⟨rfl, rfl, fun _ _ => rfl⟩

/-- C8: `run_addr2line` returns `none` exactly when the subprocess cannot be
started, produces no output, or its output trimmed of a single trailing
newline is the sentinel `"??:0"`; otherwise it returns the trimmed output. -/
theorem run_addr2line_characterization :
    run_addr2line none = none ∧
    run_addr2line (some "") = none ∧
    ∀ out : String, run_addr2line (some out) =
      if out = "" ∨ trimmed_output out = "??:0" then none
      else some (trimmed_output out) := by
  refine ⟨rfl, rfl, fun out => ?_⟩
  by_cases hd : out.data = []
  · have hout : out = "" := by cases out; simp_all
    subst hout
    simp [run_addr2line]
  · have hout : out ≠ "" := by
      intro hcon
      exact hd (by rw [hcon])
    have hl : run_addr2line (some out) =
        if trimmed_output out = "??:0" then none else some (trimmed_output out) := by
      simp only [run_addr2line, if_neg hd]
      rfl
    rw [hl]
    by_cases hq : trimmed_output out = "??:0"
    · rw [if_pos hq, if_pos (Or.inr hq)]
    · rw [if_neg hq, if_neg (by simp [hout, hq])]

/-- C10: on the no-function path, `parse_backtrace_line` dereferences the
byte at index `first-bracket-index - 1`; for the input `"[0x4005a0]"` (a line
with no `'('` whose first character is `'['`, as `backtrace_symbols` emits
for an address with no resolvable module) that index is `-1`: a read one byte
before the input buffer, outside its bounds. -/
theorem parse_shapeB_oob_probe :
    parse_shapeB_probe "[0x4005a0]" = some (-1) ∧ (-1 : Int) < 0 := by
  constructor
  · decide
  · decide

/-- C3 counterexample: the line `"x []"` contains no `'('` and is accepted by
`parse_backtrace_line`, but its address is the empty string — refuting the
claim that every accepted parenthesis-free line yields a non-empty address. -/
theorem parse_shapeB_empty_address :
    '(' ∉ "x []".data ∧
    parse_backtrace_line "x []" = some ⟨"x", none, none, ""⟩ ∧
    "".length = 0 := by
  refine ⟨by decide, by decide, rfl⟩

/-- C4 counterexample: the line `") [a](+"` ends in `'+'`, not `']'`, yet
`parse_backtrace_line` accepts it (the code looks up the first `')'` of the
whole line, here before the first `'('`, and the `'\0'` it writes over the
`'('` later satisfies the end-of-line check `line[1] != '\0'`). -/
theorem parse_accepts_nonbracket_final :
    parse_backtrace_line ") [a](+" = some ⟨"", some "", some "", "a"⟩ ∧
    ") [a](+".data.getLast? = some '+' := by
  refine ⟨by decide, by decide⟩

/-- C5: a frame whose raw symbol line fails to parse is printed as the raw
line prefixed with the frame number, and the report is the concatenation of
independently formatted frames, so the failure degrades only that frame. -/
theorem print_frame_raw_fallback (syms : List String) (use_addr2line : Bool)
    (popen : String → String → Option String) (i : Nat) (h : i < syms.length)
    (hp : parse_backtrace_line (syms.get ⟨i, h⟩) = none) :
    print_backtrace (some syms) use_addr2line popen =
      String.join (syms.enum.map fun p => print_backtrace_frame p.1 p.2 use_addr2line popen) ∧
    print_backtrace_frame i (syms.get ⟨i, h⟩) use_addr2line popen =
      toString (i + 1) ++ ": " ++ (syms.get ⟨i, h⟩ ++ "\n") := by
  refine ⟨rfl, ?_⟩
  unfold print_backtrace_frame
  rw [hp]

theorem print_frame_raw_fallback_witness :
    parse_backtrace_line "garbage" = none ∧
    print_backtrace_frame 0 "garbage" false (fun _ _ => none) = "1: garbage\n" :=
  ⟨by decide,
    (print_frame_raw_fallback ["garbage"] false (fun _ _ => none) 0 (by decide) (by decide)).2⟩

/-- C6: when a parsed frame has a function name whose demangling throws, the
frame is still printed in full, with the raw mangled name concatenated with
`'+'` and the offset as the display name. -/
theorem print_frame_demangle_fallback (i : Nat) (sym : String) (use_addr2line : Bool)
    (popen : String → String → Option String) (r : ParsedSymbol) (f off : String)
    (hp : parse_backtrace_line sym = some r) (hf : r.function = some f)
    (ho : r.offset = some off)
    (hd : demangle_cpp_name f = Except.error demangle_failed_exc_t.mk) :
    print_backtrace_frame i sym use_addr2line popen =
      toString (i + 1) ++ ": " ++
        (f ++ "+" ++ off ++ " at " ++ frame_location r use_addr2line popen ++ "\n") := by
  obtain ⟨fname, rfunc, roffs, raddr⟩ := r
  have hf' : rfunc = some f := hf
  have ho' : roffs = some off := ho
  subst hf'
  subst ho'
  have hname : frame_name ⟨fname, some f, some off, raddr⟩ = f ++ "+" ++ off := by
    have h1 : frame_name ⟨fname, some f, some off, raddr⟩ =
        (match demangle_cpp_name f with
         | Except.ok demangled => demangled
         | Except.error _ => f ++ "+" ++ off) := rfl
    rw [h1, hd]
  have hmain : print_backtrace_frame i sym use_addr2line popen =
      toString (i + 1) ++ ": " ++
        (frame_name ⟨fname, some f, some off, raddr⟩ ++ " at " ++
          frame_location ⟨fname, some f, some off, raddr⟩ use_addr2line popen ++ "\n") := by
    unfold print_backtrace_frame
    rw [hp]
  rw [hmain, hname]

theorem print_frame_demangle_fallback_witness :
    parse_backtrace_line "./prog(main+0x10) [0x400]" =
      some ⟨"./prog", some "main", some "0x10", "0x400"⟩ ∧
    demangle_cpp_name "main" = Except.error demangle_failed_exc_t.mk ∧
    print_backtrace_frame 0 "./prog(main+0x10) [0x400]" false (fun _ _ => none) =
      "1: main+0x10 at 0x400 (./prog)\n" := by
  refine ⟨by decide, rfl, ?_⟩
  exact print_frame_demangle_fallback 0 "./prog(main+0x10) [0x400]" false (fun _ _ => none)
    ⟨"./prog", some "main", some "0x10", "0x400"⟩ "main" "0x10" (by decide) rfl rfl rfl

theorem cFind_none_of_not_mem (buf : List Char) (c : Char) (h : c ∉ buf) :
    cFind buf [] c 0 = none := by
  cases hf : cFind buf [] c 0 with
  | none => rfl
  | some p =>
    exfalso
    unfold cFind at hf
    rw [List.drop_zero] at hf
    obtain ⟨_, h2, h3, _, _⟩ := cSeek_eq_some [] c buf 0 p hf
    simp only [Nat.sub_zero] at h3
    have hlt : p < buf.length := by simpa using h2
    have hm := getD_mem (Char.ofNat 0) buf p hlt
    rw [h3] at hm
    exact h hm

theorem parse_bracket_address_none_fo (buf : List Char) (nulls : List Nat) (i : Nat)
    (r : ParsedSymbol) (h : parse_bracket_address buf nulls i none = some r) :
    r.function = none ∧ r.offset = none := by
  unfold parse_bracket_address at h
  split at h
  · split at h
    · exact absurd h (by simp)
    · split at h
      · injection h with h2
        subst h2
        exact ⟨rfl, rfl⟩
      · exact absurd h (by simp)
  · exact absurd h (by simp)

/-- C3 (amended): every raw symbol line containing no `'('` that
`parse_backtrace_line` accepts yields `function = none` and `offset = none`
(the address may be the empty string, see `parse_shapeB_empty_address`). -/
theorem parse_shapeB_no_function (s : String) (r : ParsedSymbol)
    (hnp : '(' ∉ s.data) (h : parse_backtrace_line s = some r) :
    r.function = none ∧ r.offset = none := by
  have hf : cFind s.data [] '(' 0 = none := cFind_none_of_not_mem _ _ hnp
  unfold parse_backtrace_line at h
  rw [hf] at h
  cases hb : cFind s.data [] '[' 0 with
  | none => rw [hb] at h; exact absurd h (by simp)
  | some b =>
    rw [hb] at h
    cases b with
    | zero => exact absurd h (by simp)
    | succ b' =>
      simp only at h
      split at h
      · exact parse_bracket_address_none_fo _ _ _ _ h
      · exact absurd h (by simp)

theorem parse_shapeB_no_function_witness :
    '(' ∉ "./prog [0x4005a0]".data ∧
    parse_backtrace_line "./prog [0x4005a0]" =
      some ⟨"./prog", none, none, "0x4005a0"⟩ ∧
    (⟨"./prog", none, none, "0x4005a0"⟩ : ParsedSymbol).function = none ∧
    (⟨"./prog", none, none, "0x4005a0"⟩ : ParsedSymbol).offset = none :=
  ⟨by decide, by decide,
    parse_shapeB_no_function "./prog [0x4005a0]" ⟨"./prog", none, none, "0x4005a0"⟩
      (by decide) (by decide)⟩

theorem cFind_some_getD (buf : List Char) (nulls : List Nat) (c : Char) (start j : Nat)
    (h : cFind buf nulls c start = some j) :
    start ≤ j ∧ j < buf.length ∧ buf.getD j (Char.ofNat 0) = c ∧ j ∉ nulls ∧
    ∀ t, start ≤ t → t < j → t ∉ nulls ∧ buf.getD t (Char.ofNat 0) ≠ c := by
  unfold cFind at h
  obtain ⟨h1, h2, h3, h4, h5⟩ := cSeek_eq_some nulls c (buf.drop start) start j h
  rw [List.length_drop] at h2
  have hjlen : j < buf.length := by omega
  refine ⟨h1, hjlen, ?_, h4, ?_⟩
  · rw [getD_drop (Char.ofNat 0) buf start (j - start)] at h3
    have he : start + (j - start) = j := by omega
    rw [he] at h3
    exact h3
  · intro t ht1 ht2
    obtain ⟨ha, hb⟩ := h5 t ht1 ht2
    rw [getD_drop (Char.ofNat 0) buf start (t - start)] at hb
    have he : start + (t - start) = t := by omega
    rw [he] at hb
    exact ⟨ha, hb⟩

theorem parse_bracket_address_last (buf : List Char) (nulls : List Nat) (i : Nat)
    (fo : Option (Nat × Nat)) (r : ParsedSymbol)
    (hnul : Char.ofNat 0 ∉ buf)
    (hlow : ∀ n ∈ nulls, n < i)
    (h : parse_bracket_address buf nulls i fo = some r) :
    buf.getLast? = some ']' := by
  unfold parse_bracket_address at h
  split at h
  · split at h
    next hfind => exact absurd h (by simp)
    next rr hfind =>
      split at h
      next hend =>
        obtain ⟨hge, hlt, hch, hnn, _⟩ := cFind_some_getD buf nulls ']' (i + 1) rr hfind
        have hnot : rr + 1 ∉ nulls := by
          intro hc
          have := hlow _ hc
          omega
        unfold cAt at hend
        rw [if_neg hnot] at hend
        have hlen : rr + 1 = buf.length := by
          by_contra hc
          have hlt2 : rr + 1 < buf.length := by omega
          have hm := getD_mem (Char.ofNat 0) buf (rr + 1) hlt2
          rw [hend] at hm
          exact hnul hm
        rw [List.getLast?_eq_getElem?]
        have hidx : buf.length - 1 = rr := by omega
        rw [hidx, List.getElem?_eq_getElem hlt]
        have hg : buf.getD rr (Char.ofNat 0) = buf[rr] := by
          rw [List.getD_eq_getElem?_getD, List.getElem?_eq_getElem hlt]
          rfl
        rw [← hg, hch]
      next hend => exact absurd h (by simp)
  · exact absurd h (by simp)

theorem closeParenBeforeOpen_parens (s : String) (p1 p2 : Nat)
    (h1 : cFind s.data [] '(' 0 = some p1)
    (h2 : cFind s.data [] ')' 0 = some p2)
    (hw : closeParenBeforeOpen s = false) : ¬ p2 < p1 := by
  unfold closeParenBeforeOpen at hw
  rw [h2, h1] at hw
  simpa using hw

theorem parse_some_last (s : String) (r : ParsedSymbol)
    (hw : closeParenBeforeOpen s = false)
    (hn : Char.ofNat 0 ∉ s.data)
    (h : parse_backtrace_line s = some r) :
    s.data.getLast? = some ']' := by
  unfold parse_backtrace_line at h
  split at h
  next p1 h1 =>
    split at h
    next h2 => exact absurd h (by simp)
    next p2 h2 =>
      split at h
      next h3 => exact absurd h (by simp)
      next q h3 =>
        split at h
        next hsp =>
          obtain ⟨_, hl1, hc1, _, _⟩ := cFind_some_getD s.data [] '(' 0 p1 h1
          obtain ⟨_, hl2, hc2, _, _⟩ := cFind_some_getD s.data [] ')' 0 p2 h2
          obtain ⟨hq1, hql, hqc, hq4, hqmin⟩ := cFind_some_getD s.data [p1, p2] '+' (p1 + 1) q h3
          have hne : p1 ≠ p2 := by
            intro heq
            rw [heq, hc2] at hc1
            exact absurd hc1 (by decide)
          have hord : ¬ p2 < p1 := closeParenBeforeOpen_parens s p1 p2 h1 h2 hw
          have hp12 : p1 < p2 := by omega
          have hq2 : q ∉ ([p1, p2] : List Nat) := hq4
          have hqne : q ≠ p2 := by
            intro heq
            exact hq2 (by simp [heq])
          have hqp2 : q < p2 := by
            by_contra hc
            have hmem : p2 ∈ ([p1, p2] : List Nat) := by simp
            have hrange : p1 + 1 ≤ p2 := by omega
            have hlt : p2 < q := by omega
            exact (hqmin p2 hrange hlt).1 hmem
          refine parse_bracket_address_last _ _ _ _ _ hn ?_ h
          intro n hn'
          simp at hn'
          rcases hn' with rfl | rfl | rfl
          · omega
          · omega
          · omega
        next hsp => exact absurd h (by simp)
  next h1 =>
    split at h
    next hb => exact absurd h (by simp)
    next b hb =>
      split at h
      next => exact absurd h (by simp)
      next b' =>
        split at h
        next hsp =>
          refine parse_bracket_address_last _ _ _ _ _ hn ?_ h
          intro n hn'
          simp at hn'
          omega
        next hsp => exact absurd h (by simp)

/-- C4 (amended): for every input line in which the first `')'` does not
precede the first `'('` (the realistic shapes; see
`parse_accepts_nonbracket_final` for the degenerate exception) and that
contains no NUL character (a C string never does), if the final character is
not `']'` then `parse_backtrace_line` fails. -/
theorem parse_rejects_nonbracket_final (s : String)
    (hw : closeParenBeforeOpen s = false)
    (hn : Char.ofNat 0 ∉ s.data)
    (hl : s.data.getLast? ≠ some ']') :
    parse_backtrace_line s = none := by
  cases h : parse_backtrace_line s with
  | none => rfl
  | some r => exact absurd (parse_some_last s r hw hn h) hl

theorem parse_rejects_nonbracket_final_witness :
    closeParenBeforeOpen "garbage" = false ∧
    Char.ofNat 0 ∉ "garbage".data ∧
    "garbage".data.getLast? ≠ some ']' ∧
    parse_backtrace_line "garbage" = none :=
  ⟨by decide, by decide, by decide,
    parse_rejects_nonbracket_final "garbage" (by decide) (by decide) (by decide)⟩
theorem parse_shapeA_core (M F O A : List Char)
    (hm1 : '(' ∉ M) (hm2 : ')' ∉ M) (hf1 : '+' ∉ F) (hf2 : ')' ∉ F)
    (ho : ')' ∉ O) (ha : ']' ∉ A) :
    parse_backtrace_line ⟨M ++ '(' :: (F ++ '+' :: (O ++ ')' :: ' ' :: '[' :: (A ++ [']'])))⟩ =
      some ⟨⟨M⟩, some ⟨F⟩, some ⟨O⟩, ⟨A⟩⟩ := by
  set L : List Char := M ++ '(' :: (F ++ '+' :: (O ++ ')' :: ' ' :: '[' :: (A ++ [']']))) with hL
  have hdropF : L.drop (M.length + 1) = F ++ '+' :: (O ++ ')' :: ' ' :: '[' :: (A ++ [']'])) := by
    rw [hL]
    exact drop_append_cons M '(' _ M.length rfl
  have hdropO : L.drop (M.length + 1 + F.length + 1) = O ++ ')' :: ' ' :: '[' :: (A ++ [']']) := by
    have hre : L = (M ++ '(' :: F) ++ '+' :: (O ++ ')' :: ' ' :: '[' :: (A ++ [']'])) := by
      rw [hL]; simp
    rw [hre]
    exact drop_append_cons (M ++ '(' :: F) '+' _ (M.length + 1 + F.length)
      (by simp only [List.length_append, List.length_cons]; omega)
  have hdropA : L.drop (M.length + 1 + F.length + 1 + O.length + 2 + 1) = A ++ [']'] := by
    have hre : L = (M ++ '(' :: (F ++ '+' :: (O ++ [')', ' ', '[']))) ++ (A ++ [']']) := by
      rw [hL]; simp
    rw [hre]
    exact drop_at_len _ _ _
      (by simp only [List.length_append, List.length_cons, List.length_nil]; omega)
  have h1 : cFind L [] '(' 0 = some M.length := by
    unfold cFind
    rw [List.drop_zero, hL]
    rw [cSeek_append [] '(' M 0
      (fun j hj => ⟨by simp, getD_ne_of_not_mem (Char.ofNat 0) '(' M j hm1 hj⟩)]
    rw [cSeek_cons_hit [] '(' (0 + M.length) '(' _ (by simp) rfl]
    simp
  have h2 : cFind L [] ')' 0 = some (M.length + 1 + F.length + 1 + O.length) := by
    unfold cFind
    rw [List.drop_zero, hL]
    rw [cSeek_append [] ')' M 0
      (fun j hj => ⟨by simp, getD_ne_of_not_mem (Char.ofNat 0) ')' M j hm2 hj⟩)]
    rw [cSeek_cons_miss [] ')' (0 + M.length) '(' _ (by simp) (by decide)]
    rw [cSeek_append [] ')' F (0 + M.length + 1)
      (fun j hj => ⟨by simp, getD_ne_of_not_mem (Char.ofNat 0) ')' F j hf2 hj⟩)]
    rw [cSeek_cons_miss [] ')' (0 + M.length + 1 + F.length) '+' _ (by simp) (by decide)]
    rw [cSeek_append [] ')' O (0 + M.length + 1 + F.length + 1)
      (fun j hj => ⟨by simp, getD_ne_of_not_mem (Char.ofNat 0) ')' O j ho hj⟩)]
    rw [cSeek_cons_hit [] ')' (0 + M.length + 1 + F.length + 1 + O.length) ')' _ (by simp) rfl]
    simp
  have h3 : cFind L [M.length, M.length + 1 + F.length + 1 + O.length] '+' (M.length + 1) =
      some (M.length + 1 + F.length) := by
    unfold cFind
    rw [hdropF]
    rw [cSeek_append [M.length, M.length + 1 + F.length + 1 + O.length] '+' F (M.length + 1)
      (fun j hj => ⟨by simp only [List.mem_cons, List.not_mem_nil, or_false]; omega,
        getD_ne_of_not_mem (Char.ofNat 0) '+' F j hf1 hj⟩)]
    rw [cSeek_cons_hit _ '+' (M.length + 1 + F.length) '+' _
      (by simp only [List.mem_cons, List.not_mem_nil, or_false]; omega) rfl]
  have hsp : cAt L [M.length + 1 + F.length, M.length,
      M.length + 1 + F.length + 1 + O.length] (M.length + 1 + F.length + 1 + O.length + 1) = ' ' := by
    unfold cAt
    rw [if_neg (by simp only [List.mem_cons, List.not_mem_nil, or_false]; omega)]
    have hre : L = (M ++ '(' :: (F ++ '+' :: (O ++ [')']))) ++ ' ' :: ('[' :: (A ++ [']'])) := by
      rw [hL]; simp
    rw [hre]
    exact getD_append_at (Char.ofNat 0) _ ' ' _ _
      (by simp only [List.length_append, List.length_cons, List.length_nil]; omega)
  have hbr : cAt L [M.length + 1 + F.length, M.length,
      M.length + 1 + F.length + 1 + O.length] (M.length + 1 + F.length + 1 + O.length + 2) = '[' := by
    unfold cAt
    rw [if_neg (by simp only [List.mem_cons, List.not_mem_nil, or_false]; omega)]
    have hre : L = (M ++ '(' :: (F ++ '+' :: (O ++ [')', ' ']))) ++ '[' :: (A ++ [']']) := by
      rw [hL]; simp
    rw [hre]
    exact getD_append_at (Char.ofNat 0) _ '[' _ _
      (by simp only [List.length_append, List.length_cons, List.length_nil]; omega)
  have hfr : cFind L [M.length + 1 + F.length, M.length, M.length + 1 + F.length + 1 + O.length]
      ']' (M.length + 1 + F.length + 1 + O.length + 2 + 1) =
      some (M.length + 1 + F.length + 1 + O.length + 2 + 1 + A.length) := by
    unfold cFind
    rw [hdropA]
    rw [cSeek_append _ ']' A (M.length + 1 + F.length + 1 + O.length + 2 + 1)
      (fun j hj => ⟨by simp only [List.mem_cons, List.not_mem_nil, or_false]; omega,
        getD_ne_of_not_mem (Char.ofNat 0) ']' A j ha hj⟩)]
    rw [cSeek_cons_hit _ ']' (M.length + 1 + F.length + 1 + O.length + 2 + 1 + A.length) ']' _
      (by simp only [List.mem_cons, List.not_mem_nil, or_false]; omega) rfl]
  have hend : cAt L [M.length + 1 + F.length, M.length, M.length + 1 + F.length + 1 + O.length]
      (M.length + 1 + F.length + 1 + O.length + 2 + 1 + A.length + 1) = Char.ofNat 0 := by
    unfold cAt
    rw [if_neg (by simp only [List.mem_cons, List.not_mem_nil, or_false]; omega)]
    refine List.getD_eq_default L (Char.ofNat 0) ?_
    rw [hL]
    simp only [List.length_append, List.length_cons, List.length_nil]
    omega
  have hs1 : cStr L [M.length + 1 + F.length + 1 + O.length + 2 + 1 + A.length,
      M.length + 1 + F.length, M.length, M.length + 1 + F.length + 1 + O.length] 0 =
      (⟨M⟩ : String) := by
    unfold cStr
    rw [List.drop_zero, hL]
    rw [cTake_append _ M 0
      (by intro j hj; simp only [List.mem_cons, List.not_mem_nil, or_false]; omega)]
    rw [cTake_null _ (0 + M.length) _ (by simp)]
    simp
  have hs2 : cStr L [M.length + 1 + F.length + 1 + O.length + 2 + 1 + A.length,
      M.length + 1 + F.length, M.length, M.length + 1 + F.length + 1 + O.length]
      (M.length + 1) = (⟨F⟩ : String) := by
    unfold cStr
    rw [hdropF]
    rw [cTake_append _ F (M.length + 1)
      (by intro j hj; simp only [List.mem_cons, List.not_mem_nil, or_false]; omega)]
    rw [cTake_null _ (M.length + 1 + F.length) _ (by simp)]
    simp
  have hs3 : cStr L [M.length + 1 + F.length + 1 + O.length + 2 + 1 + A.length,
      M.length + 1 + F.length, M.length, M.length + 1 + F.length + 1 + O.length]
      (M.length + 1 + F.length + 1) = (⟨O⟩ : String) := by
    unfold cStr
    rw [hdropO]
    rw [cTake_append _ O (M.length + 1 + F.length + 1)
      (by intro j hj; simp only [List.mem_cons, List.not_mem_nil, or_false]; omega)]
    rw [cTake_null _ (M.length + 1 + F.length + 1 + O.length) _ (by simp)]
    simp
  have hs4 : cStr L [M.length + 1 + F.length + 1 + O.length + 2 + 1 + A.length,
      M.length + 1 + F.length, M.length, M.length + 1 + F.length + 1 + O.length]
      (M.length + 1 + F.length + 1 + O.length + 2 + 1) = (⟨A⟩ : String) := by
    unfold cStr
    rw [hdropA]
    rw [cTake_append _ A (M.length + 1 + F.length + 1 + O.length + 2 + 1)
      (by intro j hj; simp only [List.mem_cons, List.not_mem_nil, or_false]; omega)]
    rw [cTake_null _ (M.length + 1 + F.length + 1 + O.length + 2 + 1 + A.length) _ (by simp)]
    simp
  have hdata : ((⟨L⟩ : String)).data = L := rfl
  simp only [parse_backtrace_line, hdata, h1, h2, h3]
  rw [if_pos hsp]
  simp only [parse_bracket_address, hfr]
  rw [if_pos hbr, if_pos hend]
  simp [hs1, hs2, hs3, hs4]

/-- C2: every well-formed Shape-A line `module(function+offset) [address]`
(components free of the delimiter characters the parser keys on, as described
at `assembleA`) parses into exactly its four components, so reassembling the
parsed record as `module(function+offset) [address]` reproduces the line. -/
theorem parse_shapeA_roundtrip (m f off a : String)
    (hm1 : '(' ∉ m.data) (hm2 : ')' ∉ m.data)
    (hf1 : '+' ∉ f.data) (hf2 : ')' ∉ f.data)
    (ho : ')' ∉ off.data) (ha : ']' ∉ a.data) :
    parse_backtrace_line (assembleA m f off a) = some ⟨m, some f, some off, a⟩ := by
  obtain ⟨M⟩ := m
  obtain ⟨F⟩ := f
  obtain ⟨O⟩ := off
  obtain ⟨A⟩ := a
  exact parse_shapeA_core M F O A hm1 hm2 hf1 hf2 ho ha

theorem parse_shapeA_roundtrip_witness :
    ('(' ∉ "./prog".data ∧ ')' ∉ "./prog".data ∧ '+' ∉ "_Z3fooi".data ∧
      ')' ∉ "_Z3fooi".data ∧ ')' ∉ "0x10".data ∧ ']' ∉ "0x4005a0".data) ∧
    parse_backtrace_line (assembleA "./prog" "_Z3fooi" "0x10" "0x4005a0") =
      some ⟨"./prog", some "_Z3fooi", some "0x10", "0x4005a0"⟩ :=
  ⟨⟨by decide, by decide, by decide, by decide, by decide, by decide⟩,
    parse_shapeA_roundtrip "./prog" "_Z3fooi" "0x10" "0x4005a0"
      (by decide) (by decide) (by decide) (by decide) (by decide) (by decide)⟩
